import Mathlib

/-!
Verification of the session transport and segmentation layer of the
whisper_real_time client/server pair (`transcribe_client.py`,
`transcribe_server.py`).

Bytes are modelled as natural numbers below 256, byte strings as
`List Nat`.  Wall-clock instants and durations are modelled as integer
microseconds, which is exact for Python `datetime`/`timedelta`
arithmetic.  Machine integers are modelled as `Nat`/`Int` with explicit
bounds where overflow or signedness matters.
-/

/-! ## Frame codec

The client sends `struct.pack("l", len(data)) + data`
(transcribe_client.py line 193); the server sends
`struct.pack("l", len(text)) + text` (transcribe_server.py line 96).
Both readers call `recv_exact(8, conn)` and then
`struct.unpack("l", ...)` (client line 202, server line 88).

`"l"` is a native-byte-order, native-size C `long`.  We parameterise the
pack/unpack model by the platform long width `w` in bytes (8 on LP64
hosts, 4 on 32-bit and LLP64 hosts) and assume a little-endian host.
`struct.pack("l", n)` raises `struct.error` for `n` outside the signed
range, modelled as `none`; `struct.unpack("l", bs)` raises unless
`bs` has exactly the native width. -/

/-- Little-endian byte encoding of `n` in exactly `w` bytes (low byte first). -/
def natToLE : Nat → Nat → List Nat
  | 0, _ => []
  | w + 1, n => n % 256 :: natToLE w (n / 256)

/-- Value of a little-endian byte list. -/
def leToNat : List Nat → Nat
  | [] => 0
  | b :: bs => b + 256 * leToNat bs

/-- Model of `struct.pack("l", n)` on a little-endian host whose C `long`
is `w` bytes wide: `none` models `struct.error` when `n` is outside the
signed range. -/
def packLongW (w : Nat) (n : Nat) : Option (List Nat) :=
  if n < 2 ^ (8 * w - 1) then some (natToLE w n) else none

/-- Model of `struct.unpack("l", bs)` on a little-endian host whose C
`long` is `w` bytes wide: raises (`none`) unless `bs` is exactly `w`
bytes, otherwise the signed (two's complement) value. -/
def unpackLongW (w : Nat) (bs : List Nat) : Option Int :=
  if bs.length = w then
    let u := leToNat bs
    some (if u < 2 ^ (8 * w - 1) then (u : Int) else (u : Int) - 2 ^ (8 * w))
  else none

/-- Encoder: `struct.pack("l", len(data)) + data`
(transcribe_client.py line 193, transcribe_server.py line 96). -/
def encodeFrameW (w : Nat) (p : List Nat) : Option (List Nat) :=
  (packLongW w p.length).map (· ++ p)

/-- Model of `recv_exact(n, conn)` reading from an in-memory buffer that
holds the whole stream: returns the first `n` bytes and the rest, or
`none` when fewer than `n` bytes will ever arrive.  `recv_exact` with a
non-positive `n` skips its loop and returns `b''`, which `takeExact 0`
matches. -/
def takeExact (n : Nat) (bs : List Nat) : Option (List Nat × List Nat) :=
  if n ≤ bs.length then some (bs.take n, bs.drop n) else none

/-- Decoder path of both peers: `recv_exact(8, conn)` — the count 8 is
hard-coded on both sides — then `struct.unpack("l", ...)`, then
`recv_exact(length, conn)` (client lines 202-203, server lines 88-92).
A negative unpacked length makes `recv_exact`'s loop guard
`len(data) < n` false at once, returning `b''`, modelled by
`Int.toNat` mapping negatives to 0. -/
def decodeFrameW (w : Nat) (bs : List Nat) : Option (List Nat) :=
  match takeExact 8 bs with
  | none => none
  | some (pre, rest) =>
    match unpackLongW w pre with
    | none => none
    | some len =>
      match takeExact len.toNat rest with
      | none => none
      | some (payload, _) => some payload

/-- The codec as it behaves on the LP64 hosts the program actually runs on. -/
def encodeFrame (p : List Nat) : Option (List Nat) := encodeFrameW 8 p

/-- The decode path as it behaves on LP64 hosts. -/
def decodeFrame (bs : List Nat) : Option (List Nat) := decodeFrameW 8 bs

theorem natToLE_length (w : Nat) : ∀ n, (natToLE w n).length = w := by
  induction w with
  | zero => intro n; rfl
  | succ w ih => intro n; simp [natToLE, ih]

theorem leToNat_natToLE (w : Nat) : ∀ n, n < 256 ^ w → leToNat (natToLE w n) = n := by
  induction w with
  | zero =>
    intro n h
    interval_cases n
    rfl
  | succ w ih =>
    intro n h
    have hdiv : n / 256 < 256 ^ w := by
      rw [Nat.div_lt_iff_lt_mul (by norm_num)]
      calc n < 256 ^ (w + 1) := h
        _ = 256 ^ w * 256 := by ring
    simp only [natToLE, leToNat, ih _ hdiv]
    omega

theorem takeExact_append (l r : List Nat) :
    takeExact l.length (l ++ r) = some (l, r) := by
  simp [takeExact, List.take_left, List.drop_left]

/-- C1: Framing round-trip.  For every byte payload `p` (including the
zero-length payload) that `struct.pack("l", ·)` accepts — i.e. whose
length is below `2^63`, which covers every payload a real process can
hold — decoding the bytes produced by encoding `p` yields exactly `p`. -/
theorem framing_roundtrip (p : List Nat) (h : p.length < 2 ^ 63) :
    Option.bind (encodeFrame p) decodeFrame = some p := by
  have hpack : packLongW 8 p.length = some (natToLE 8 p.length) := by
    unfold packLongW
    rw [if_pos (show p.length < 2 ^ (8 * 8 - 1) from h)]
  have hlen : (natToLE 8 p.length).length = 8 := natToLE_length 8 p.length
  have hval : leToNat (natToLE 8 p.length) = p.length := by
    apply leToNat_natToLE
    have h2 : (2 : Nat) ^ 63 < 256 ^ 8 := by norm_num
    exact lt_trans h h2
  have henc : encodeFrame p = some (natToLE 8 p.length ++ p) := by
    simp [encodeFrame, encodeFrameW, hpack]
  rw [henc]
  show decodeFrame (natToLE 8 p.length ++ p) = some p
  have h8 : takeExact 8 (natToLE 8 p.length ++ p) = some (natToLE 8 p.length, p) := by
    have := takeExact_append (natToLE 8 p.length) p
    rwa [hlen] at this
  have hunpack : unpackLongW 8 (natToLE 8 p.length) = some (p.length : Int) := by
    simp only [unpackLongW, hlen, if_pos rfl, hval, if_true]
    rw [if_pos (show p.length < 2 ^ (8 * 8 - 1) from h)]
  have hp : takeExact p.length p = some (p, []) := by
    simpa using takeExact_append p []
  simp only [decodeFrame, decodeFrameW, h8, hunpack, Int.toNat_natCast, hp]

/-- C1 witness: the round-trip evaluated at the concrete payload `[1, 2, 3]`. -/
theorem framing_roundtrip_witness :
    [1, 2, 3].length < 2 ^ 63 ∧
      Option.bind (encodeFrame [1, 2, 3]) decodeFrame = some [1, 2, 3] :=
  ⟨by decide, framing_roundtrip [1, 2, 3] (by decide)⟩

/-- C2: the length prefix is NOT a platform-independent 8-byte field.
`struct.pack("l", ·)` is native-width: on a host whose C `long` is
4 bytes the encoder emits a 4-byte prefix, different from the LP64
encoding of the same payload, while both readers still demand exactly
8 prefix bytes and then `struct.unpack("l", ...)` of those 8 bytes
raises `struct.error` on such a host, so decoding never returns a
payload there.  Evaluated at the empty payload. -/
theorem length_prefix_platform_dependent :
    encodeFrameW 4 [] = some [0, 0, 0, 0] ∧
      encodeFrameW 8 [] = some [0, 0, 0, 0, 0, 0, 0, 0] ∧
      encodeFrameW 4 [] ≠ encodeFrameW 8 [] ∧
      ∀ bs : List Nat, decodeFrameW 4 bs = none := by
  refine ⟨by decide, by decide, by decide, ?_⟩
  intro bs
  simp only [decodeFrameW, takeExact]
  by_cases h : 8 ≤ bs.length
  · rw [if_pos h]
    have : (bs.take 8).length = 8 := by
      simp [List.length_take]; omega
    simp [unpackLongW, this]
  · rw [if_neg h]

/-! ## `recv_exact` on a closing stream

`recv_exact` (transcribe_client.py lines 160-164, transcribe_server.py
lines 68-72) is

    data = b''
    while len(data) < n:
        data += conn.recv(n - len(data))
    return data

`socket.recv` returns at most the requested number of bytes, and
returns `b''` once the peer has closed the connection.  We model the
stream as the list of chunks successive `recv` calls deliver; once the
list is exhausted the stream is closed and every further `recv`
returns the empty chunk.  The loop is given explicit fuel: returning
`none` for every fuel value means the loop never terminates. -/

/-- Fuelled model of `recv_exact(n, conn)`: `s` is the list of chunks
the socket will still deliver (closed afterwards), `acc` the bytes read
so far.  Each iteration appends `conn.recv(n - len(data))`: the next
chunk truncated to the requested count, or `b''` if the stream has
closed. -/
def recvExactFuel : Nat → Nat → List (List Nat) → List Nat →
    Option (List Nat × List (List Nat))
  | 0, _, _, _ => none
  | fuel + 1, n, s, acc =>
    if n ≤ acc.length then some (acc, s)
    else
      match s with
      | [] => recvExactFuel fuel n [] acc
      | c :: s' => recvExactFuel fuel n s' (acc ++ c.take (n - acc.length))

/-- Total number of bytes the stream will still deliver. -/
def streamBytes (s : List (List Nat)) : Nat := (s.map List.length).sum

/-- C3 counter-evidence: when the stream closes before `n` bytes have
been delivered (fewer than `n - acc.length` bytes remain), `recv_exact`
never terminates — for every fuel bound it is still looping, because
`conn.recv` keeps returning `b''` and no exception is ever raised.  In
particular decoding hangs, it does not fail with a `FramingError`, both
when the close happens during the 8-byte prefix and during the payload. -/
theorem recvExact_diverges_on_close (fuel : Nat) :
    ∀ (n : Nat) (s : List (List Nat)) (acc : List Nat),
      streamBytes s + acc.length < n → recvExactFuel fuel n s acc = none := by
  induction fuel with
  | zero => intro n s acc _; rfl
  | succ fuel ih =>
    intro n s acc h
    match s with
    | [] =>
      simp only [recvExactFuel]
      rw [if_neg (by simp [streamBytes] at h; omega)]
      exact ih n [] acc h
    | c :: s' =>
      simp only [recvExactFuel]
      rw [if_neg (by simp [streamBytes] at h; omega)]
      apply ih
      have ht : (c.take (n - acc.length)).length ≤ c.length := by
        simp [List.length_take]
      simp only [streamBytes, List.map_cons, List.sum_cons, List.length_append] at h ⊢
      omega

/-- C3 witness: a stream that closes immediately; `recv_exact(8, conn)`
is still looping after 1000 iterations. -/
theorem recvExact_diverges_on_close_witness :
    streamBytes [] + List.length ([] : List Nat) < 8 ∧
      recvExactFuel 1000 8 [] [] = none :=
  ⟨by decide, recvExact_diverges_on_close 1000 8 [] [] (by decide)⟩

/-! ## Exceptions and connect with retry

`connect` (transcribe_client.py lines 167-182) loops: one connection
attempt per iteration; `except ConnectionRefusedError` prints a notice,
sleeps 5 seconds and retries; any other exception is not caught and
propagates; on success the socket is yielded to the caller. -/

/-- The Python exceptions relevant to the transport layer. -/
inductive PyExn
  | runtimeError (msg : String)
  | connectionRefused
  | osError (msg : String)
  deriving DecidableEq

/-- Outcome of one `s.connect((host, port))` attempt. -/
inductive AttemptOutcome
  | ok
  | exn (e : PyExn)

/-- Run of the `connect` retry loop over a list of attempt outcomes:
returns the list of back-off sleeps taken (in seconds) and `none` when
the outcome list ran out while still retrying, `some (.ok ())` on a
successful connection, `some (.error e)` when exception `e` propagated. -/
def connectRun : List AttemptOutcome → List Nat × Option (Except PyExn Unit)
  | [] => ([], none)
  | .ok :: _ => ([], some (.ok ()))
  | .exn e :: rest =>
    if e = PyExn.connectionRefused then
      let r := connectRun rest
      (5 :: r.1, r.2)
    else ([], some (.error e))

/-- C4: `connect` sleeps a fixed 5 seconds after each refused attempt
and keeps retrying, never raising for refusals; it returns as soon as
an attempt succeeds; any non-refusal exception on an attempt propagates
immediately as a fatal startup error with no retry. -/
theorem connect_retry_policy (k : Nat) (rest : List AttemptOutcome) (e : PyExn)
    (he : e ≠ PyExn.connectionRefused) :
    connectRun (List.replicate k (.exn .connectionRefused) ++ .ok :: rest) =
        (List.replicate k 5, some (.ok ())) ∧
      connectRun (List.replicate k (.exn .connectionRefused) ++ .exn e :: rest) =
        (List.replicate k 5, some (.error e)) := by
  induction k with
  | zero =>
    refine ⟨by simp [connectRun], ?_⟩
    simp [connectRun, if_neg he]
  | succ k ih =>
    refine ⟨?_, ?_⟩
    · simp only [List.replicate_succ, List.cons_append, connectRun, eq_self_iff_true,
        if_true, List.append_eq, ih.1]
    · simp only [List.replicate_succ, List.cons_append, connectRun, eq_self_iff_true,
        if_true, List.append_eq, ih.2]

/-- C4 witness: three refusals then success, and three refusals then a
fatal error, evaluated concretely. -/
theorem connect_retry_policy_witness :
    PyExn.osError "timed out" ≠ PyExn.connectionRefused ∧
      connectRun (List.replicate 3 (.exn .connectionRefused) ++ .ok :: []) =
        (List.replicate 3 5, some (.ok ())) ∧
      connectRun
          (List.replicate 3 (.exn .connectionRefused) ++ .exn (.osError "timed out") :: []) =
        (List.replicate 3 5, some (.error (.osError "timed out"))) := by
  refine ⟨by decide, ?_, ?_⟩
  · exact (connect_retry_policy 3 [] (.osError "timed out") (by decide)).1
  · exact (connect_retry_policy 3 [] (.osError "timed out") (by decide)).2

/-! ## The client exchange coroutine

`connection_coroutine` (transcribe_client.py lines 185-205) loops:
receive a payload from the caller, send the frame — any exception there
is re-raised as `RuntimeError("Gone while sending")`; if the payload is
empty (keepalive) skip the receive half and keep the previous text;
otherwise read the reply frame — any exception there is re-raised as
`RuntimeError("Gone while receiving")`.  The receive half's primitive
outcome is abstracted as raised-or-text. -/

/-- The primitive socket outcomes of one coroutine iteration:
whether `s.send` raises, whether the receive half raises, and the
reply text read when it does not. -/
structure StepOutcome where
  sendExn : Bool
  recvExn : Bool
  recvText : List Nat

/-- One iteration of the `connection_coroutine` body, returning the
value the next `cnx.send` yields to the caller or the exception that
propagates. -/
def coroStep (ev : StepOutcome) (payload : List Nat) (lastText : Option (List Nat)) :
    Except PyExn (Option (List Nat)) :=
  if ev.sendExn then .error (.runtimeError "Gone while sending")
  else if payload = [] then .ok lastText
  else if ev.recvExn then .error (.runtimeError "Gone while receiving")
  else .ok (some ev.recvText)

/-- Whether the `connect` context manager swallows an exception thrown
from the with-body back at its `yield` point and loops to reconnect:
only `ConnectionRefusedError` is caught there
(transcribe_client.py line 175). -/
def bodyExnRetried : PyExn → Bool
  | .connectionRefused => true
  | _ => false

/-- Run of the coroutine loop over a list of (socket outcome, payload)
steps, tracking how many times a connection has been established; an
exception the `connect` wrapper does not catch kills the generator:
the error propagates and no further step runs. -/
def coroRun : List (StepOutcome × List Nat) → Option (List Nat) → Nat →
    Except PyExn (Option (List Nat)) × Nat
  | [], last, connects => (.ok last, connects)
  | (ev, p) :: rest, last, connects =>
    match coroStep ev p last with
    | .ok t => coroRun rest t connects
    | .error e =>
      if bodyExnRetried e then coroRun rest none (connects + 1)
      else (.error e, connects)

theorem coroStep_error_not_refused (ev : StepOutcome) (p : List Nat)
    (last : Option (List Nat)) (e : PyExn) (h : coroStep ev p last = .error e) :
    bodyExnRetried e = false := by
  unfold coroStep at h
  split at h
  · cases h; rfl
  · split at h
    · cases h
    · split at h
      · cases h; rfl
      · cases h

/-- C5: any failure in the send half of an exchange raises the
send-side error (`RuntimeError("Gone while sending")`, the spec's
`TransportError("send failed")`); any failure in the receive half of a
non-heartbeat exchange raises the receive-side error
(`RuntimeError("Gone while receiving")`, the spec's
`TransportError("receive failed")`); on any such error the run stops
with that error, no later step executes, and the number of established
connections never grows — the transport performs no automatic
reconnection after an exchange failure. -/
theorem exchange_failure_routing (ev : StepOutcome) (p : List Nat)
    (last : Option (List Nat)) :
    (ev.sendExn = true →
      coroStep ev p last = .error (.runtimeError "Gone while sending")) ∧
      (ev.sendExn = false → p ≠ [] → ev.recvExn = true →
        coroStep ev p last = .error (.runtimeError "Gone while receiving")) ∧
      (∀ (rest : List (StepOutcome × List Nat)) (c : Nat) (e : PyExn),
        coroStep ev p last = .error e →
        coroRun ((ev, p) :: rest) last c = (.error e, c)) ∧
      (∀ (steps : List (StepOutcome × List Nat)) (l0 : Option (List Nat)) (c : Nat),
        (coroRun steps l0 c).2 = c) := by
  refine ⟨?_, ?_, ?_, ?_⟩
  · intro hs
    simp [coroStep, hs]
  · intro hs hp hr
    simp [coroStep, hs, hp, hr]
  · intro rest c e he
    simp [coroRun, he, coroStep_error_not_refused ev p last e he]
  · intro steps
    induction steps with
    | nil => intro l0 c; rfl
    | cons sp rest ih =>
      intro l0 c
      obtain ⟨ev2, p2⟩ := sp
      simp only [coroRun]
      cases hstep : coroStep ev2 p2 l0 with
      | ok t => exact ih t c
      | error e =>
        have hb := coroStep_error_not_refused ev2 p2 l0 e hstep
        simp [hb]

/-- C5 witness: a send failure and a receive failure evaluated at
concrete steps; the failing run stops at once and the connection count
stays at the single initial connect. -/
theorem exchange_failure_routing_witness :
    coroStep ⟨true, false, []⟩ [1] none = .error (.runtimeError "Gone while sending") ∧
      coroStep ⟨false, true, []⟩ [1] none = .error (.runtimeError "Gone while receiving") ∧
      coroRun [(⟨false, true, []⟩, [1]), (⟨false, false, [7]⟩, [2])] none 1 =
        (.error (.runtimeError "Gone while receiving"), 1) := by
  refine ⟨?_, ?_, ?_⟩
  · exact (exchange_failure_routing ⟨true, false, []⟩ [1] none).1 rfl
  · exact (exchange_failure_routing ⟨false, true, []⟩ [1] none).2.1 rfl (by decide) rfl
  · exact (exchange_failure_routing ⟨false, true, []⟩ [1] none).2.2.1
      [(⟨false, false, [7]⟩, [2])] 1 (.runtimeError "Gone while receiving") rfl

/-! ## Server dispatch loop

The server loop (transcribe_server.py lines 87-98) decodes a frame per
iteration; a zero-length payload is a keepalive — it prints a dot and
`continue`s, calling no engine and writing nothing; otherwise the
payload goes to the transcription engine (the `yield data_recv` /
`sock.send(text)` exchange with `main`) exactly once and the resulting
text is framed and written back. -/

/-- Run of the server dispatch over the decoded payloads of a session,
returning how many times the transcription engine was called and the
reply frames written, in order. -/
def serverRun (engine : List Nat → List Nat) :
    List (List Nat) → Nat × List (Option (List Nat))
  | [] => (0, [])
  | p :: rest =>
    if p.length = 0 then serverRun engine rest
    else
      let r := serverRun engine rest
      (r.1 + 1, encodeFrame (engine p) :: r.2)

/-- C6: a zero-length payload makes the dispatch loop skip both the
engine and the reply — the run over `[] :: rest` equals the run over
`rest`, and a session of only heartbeats calls the engine zero times
and writes no frame; on the client side a heartbeat send
(`if data == b'': continue`) performs no read at all: the step returns
the previous text for every receive-half outcome. -/
theorem heartbeat_no_engine_no_reply (engine : List Nat → List Nat)
    (rest : List (List Nat)) (ev : StepOutcome) (last : Option (List Nat))
    (hsend : ev.sendExn = false) :
    serverRun engine ([] :: rest) = serverRun engine rest ∧
      serverRun engine [[]] = (0, []) ∧
      coroStep ev [] last = .ok last := by
  refine ⟨by simp [serverRun], by simp [serverRun], ?_⟩
  simp [coroStep, hsend]

/-- C6 witness: one heartbeat between two real payloads changes nothing
about engine calls or replies, and a concrete heartbeat step reads
nothing. -/
theorem heartbeat_no_engine_no_reply_witness :
    StepOutcome.sendExn ⟨false, true, [9]⟩ = false ∧
      serverRun (fun p => p) ([] :: [[1], [2]]) = serverRun (fun p => p) [[1], [2]] ∧
      serverRun (fun p => p) [[]] = (0, []) ∧
      coroStep ⟨false, true, [9]⟩ [] (some [5]) = .ok (some [5]) := by
  have h := heartbeat_no_engine_no_reply (fun p => p) [[1], [2]] ⟨false, true, [9]⟩
    (some [5]) rfl
  exact ⟨rfl, h.1, h.2.1, h.2.2⟩

/-! ## Transcript update

The client main loop (transcribe_client.py lines 118-121) after each
exchange:

    if phrase_complete:
        transcription.append(text)
    else:
        transcription[-1] = text

`transcription` starts as `['']` and only ever grows, so it is never
empty when this runs. -/

/-- Transcript update per exchange tick: append the new text as a fresh
line on a completed phrase, otherwise replace the last line wholesale. -/
def updateTranscript (transcription : List String) (phrase_complete : Bool)
    (text : String) : List String :=
  if phrase_complete then transcription ++ [text]
  else transcription.dropLast ++ [text]

/-- C7: on an exchange tick the transcript changes in exactly one of
two ways.  A finalize tick appends exactly one new last line: the
length grows by one, the first `length` lines are untouched, and the
new text is the last line.  An interim tick replaces the last line
wholesale: the length is unchanged, all lines before the last are
untouched, and the new text is the last line. -/
theorem transcript_update_shape (log : List String) (t : String) (h : log ≠ []) :
    ((updateTranscript log true t).length = log.length + 1 ∧
        (updateTranscript log true t).take log.length = log ∧
        (updateTranscript log true t).getLast? = some t) ∧
      ((updateTranscript log false t).length = log.length ∧
        (updateTranscript log false t).take (log.length - 1) =
          log.take (log.length - 1) ∧
        (updateTranscript log false t).getLast? = some t) := by
  have htrue : updateTranscript log true t = log ++ [t] := rfl
  have hfalse : updateTranscript log false t = log.dropLast ++ [t] := rfl
  have hlen : log.dropLast.length = log.length - 1 := List.length_dropLast log
  have hpos : 1 ≤ log.length := List.length_pos.mpr h
  constructor
  · refine ⟨by simp [htrue], ?_, by simp [htrue]⟩
    rw [htrue]
    exact List.take_left log [t]
  · refine ⟨?_, ?_, by simp [hfalse]⟩
    · rw [hfalse]
      simp only [List.length_append, List.length_singleton, hlen]
      omega
    · rw [hfalse, ← hlen, List.take_left, hlen, List.dropLast_eq_take]

/-- C7 witness: append and replace evaluated on the concrete transcript
`["a", "b"]`. -/
theorem transcript_update_shape_witness :
    (["a", "b"] : List String) ≠ [] ∧
      updateTranscript ["a", "b"] true "c" = ["a", "b", "c"] ∧
      updateTranscript ["a", "b"] false "c" = ["a", "c"] ∧
      (updateTranscript ["a", "b"] true "c").take 2 = ["a", "b"] ∧
      (updateTranscript ["a", "b"] false "c").take 1 = ["a"] := by
  have h := transcript_update_shape ["a", "b"] "c" (by simp)
  refine ⟨by simp, by simp [updateTranscript], by simp [updateTranscript], ?_, ?_⟩
  · exact h.1.2.1
  · exact h.2.2.1

/-! ## Phrase segmentation tick

The data-bearing branch of the client main loop
(transcribe_client.py lines 88-111):

    now = datetime.utcnow()
    phrase_complete = False
    if phrase_time and now - phrase_time > timedelta(seconds=phrase_timeout):
        current_sample = bytes()
        phrase_complete = True
    phrase_time = now
    while not data_queue.empty():
        data = data_queue.get(...)
        current_sample += data

`phrase_time` is `None` before the first tick and a `datetime`
afterwards; `datetime` objects are always truthy, so the condition is
exactly "a previous time exists and the gap strictly exceeds the
threshold".  Times are integer microseconds; the `.wav` dump of the
previous sample that happens before the reset does not touch the
state.  The queue drain appends the queued chunks in arrival order. -/

/-- The segmentation state the loop threads between ticks. -/
structure SegState where
  phrase_time : Option Int
  current_sample : List Nat

/-- One data-bearing tick: finalize test, optional buffer reset,
timestamp update, then the queue drain. -/
def segTick (st : SegState) (now : Int) (phrase_timeout : Int)
    (chunks : List (List Nat)) : SegState × Bool :=
  let phrase_complete :=
    match st.phrase_time with
    | some t => decide (now - t > phrase_timeout)
    | none => false
  let sample0 := if phrase_complete then [] else st.current_sample
  ({ phrase_time := some now, current_sample := sample0 ++ chunks.flatten },
    phrase_complete)

/-- C8: a tick finalizes the phrase exactly when a previous
chunk-arrival time exists and the wall-clock gap since it strictly
exceeds the phrase-gap threshold; on finalize the audio buffer is
reset to empty before the newly arrived chunks are appended (otherwise
the chunks extend the old buffer); the very first tick, with no prior
time, never finalizes; and the tick records `now` as the new phrase
time. -/
theorem segmentation_finalize_rule (st : SegState) (now phrase_timeout : Int)
    (chunks : List (List Nat)) :
    ((segTick st now phrase_timeout chunks).2 = true ↔
        ∃ t, st.phrase_time = some t ∧ now - t > phrase_timeout) ∧
      (segTick st now phrase_timeout chunks).1.current_sample =
        (if (segTick st now phrase_timeout chunks).2 then []
          else st.current_sample) ++ chunks.flatten ∧
      (st.phrase_time = none → (segTick st now phrase_timeout chunks).2 = false) ∧
      (segTick st now phrase_timeout chunks).1.phrase_time = some now := by
  refine ⟨?_, ?_, ?_, ?_⟩
  · cases hpt : st.phrase_time with
    | none => simp [segTick, hpt]
    | some t => simp [segTick, hpt]
  · cases hpt : st.phrase_time with
    | none => simp [segTick, hpt]
    | some t => simp [segTick, hpt]
  · intro hpt
    simp [segTick, hpt]
  · cases hpt : st.phrase_time with
    | none => simp [segTick, hpt]
    | some t => simp [segTick, hpt]

/-- C8 witness: with the default 3-second (3000000 µs) threshold, a
tick 4 seconds after the previous one finalizes and starts the buffer
from the new chunks alone, while the first tick ever never finalizes. -/
theorem segmentation_finalize_rule_witness :
    (segTick ⟨some 0, [1, 2]⟩ 4000000 3000000 [[3], [4]]).2 = true ∧
      (segTick ⟨some 0, [1, 2]⟩ 4000000 3000000 [[3], [4]]).1.current_sample =
        [3, 4] ∧
      (segTick ⟨none, []⟩ 0 3000000 [[3]]).2 = false := by
  have h1 := segmentation_finalize_rule ⟨some 0, [1, 2]⟩ 4000000 3000000 [[3], [4]]
  have h2 := segmentation_finalize_rule ⟨none, []⟩ 0 3000000 [[3]]
  refine ⟨?_, ?_, h2.2.2.1 rfl⟩
  · exact h1.1.mpr ⟨0, rfl, by norm_num⟩
  · have hc := h1.2.1
    rw [h1.1.mpr ⟨0, rfl, by norm_num⟩] at hc
    simpa using hc

/-! ## KeepAlive timer

`KeepAlive` (transcribe_client.py lines 140-153): `step` computes
`ret = now - self.last < timedelta(seconds=self.seconds)`, refreshes
`self.last = now` only when `ret` is true, and returns `ret`;
`reset` sets `self.last` to the current time.  Times are integer
microseconds, so the threshold is `1000000 * seconds`. -/

/-- The keepalive timer state: the constructor's threshold in whole
seconds and the timestamp of the last refresh in microseconds. -/
structure KeepAlive where
  seconds : Int
  last : Int

/-- `KeepAlive.step` at current time `now`: the returned `Bool` is the
Python return value, the returned state the mutated object. -/
def KeepAlive.step (ka : KeepAlive) (now : Int) : Bool × KeepAlive :=
  let ret := decide (now - ka.last < 1000000 * ka.seconds)
  (ret, if ret then { ka with last := now } else ka)

/-- `KeepAlive.reset` at current time `now`. -/
def KeepAlive.reset (ka : KeepAlive) (now : Int) : KeepAlive :=
  { ka with last := now }

/-- C9: `step` returns true exactly when the elapsed time since the
last reset is strictly below the threshold; whenever it returns true it
also moves the reset point to `now` (leaving the threshold untouched),
and when it returns false the state is left completely unchanged. -/
theorem keepalive_step_spec (ka : KeepAlive) (now : Int) :
    ((ka.step now).1 = true ↔ now - ka.last < 1000000 * ka.seconds) ∧
      ((ka.step now).1 = true →
        (ka.step now).2.last = now ∧ (ka.step now).2.seconds = ka.seconds) ∧
      ((ka.step now).1 = false → (ka.step now).2 = ka) := by
  by_cases hlt : now - ka.last < 1000000 * ka.seconds
  · refine ⟨by simp [KeepAlive.step, hlt], ?_, ?_⟩
    · intro _
      constructor <;> simp [KeepAlive.step, hlt]
    · intro hfalse
      exfalso
      simp [KeepAlive.step, hlt] at hfalse
  · refine ⟨by simp [KeepAlive.step, hlt], ?_, ?_⟩
    · intro htrue
      exfalso
      simp [KeepAlive.step, hlt] at htrue
    · intro _
      simp [KeepAlive.step, hlt]

/-- C9 witness: a fresh timer (threshold 1 s) fires at 500 ms and moves
its reset point there; at 1.5 s it does not fire and is unchanged. -/
theorem keepalive_step_spec_witness :
    (KeepAlive.step ⟨1, 0⟩ 500000).1 = true ∧
      (KeepAlive.step ⟨1, 0⟩ 500000).2 = ⟨1, 500000⟩ ∧
      (KeepAlive.step ⟨1, 0⟩ 1500000).1 = false ∧
      (KeepAlive.step ⟨1, 0⟩ 1500000).2 = ⟨1, 0⟩ := by
  have h1 := keepalive_step_spec ⟨1, 0⟩ 500000
  have h2 := keepalive_step_spec ⟨1, 0⟩ 1500000
  have f1 : (KeepAlive.step ⟨1, 0⟩ 500000).1 = true := h1.1.mpr (by norm_num)
  have f2 : (KeepAlive.step ⟨1, 0⟩ 1500000).1 = false := by
    by_contra hc
    have := h1  -- keep names disjoint
    have ht : (KeepAlive.step ⟨1, 0⟩ 1500000).1 = true := by
      revert hc; cases (KeepAlive.step ⟨1, 0⟩ 1500000).1 <;> simp
    have := h2.1.mp ht
    norm_num at this
  refine ⟨f1, ?_, f2, h2.2.2 f2⟩
  have := h1.2.1 f1
  cases hstep : (KeepAlive.step ⟨1, 0⟩ 500000).2 with
  | mk s l =>
    rw [hstep] at this
    simp only at this
    simp [this.1, this.2]

/-- Repeated `step` calls at successive times. -/
def KeepAlive.runSteps (ka : KeepAlive) : List Int → List Bool × KeepAlive
  | [] => ([], ka)
  | t :: ts =>
    let r := ka.step t
    let r2 := r.2.runSteps ts
    (r.1 :: r2.1, r2.2)

theorem keepalive_step_false_mono (ka : KeepAlive) (t0 t1 : Int)
    (h0 : (ka.step t0).1 = false) (h01 : t0 ≤ t1) : (ka.step t1).1 = false := by
  simp only [KeepAlive.step, decide_eq_false_iff_not] at h0 ⊢
  omega

/-- C10: once `step` has returned false, every later `step` at a
non-decreasing clock returns false as well and leaves the timer
unchanged, until `reset` is called: an expired timer never refreshes
itself, so no further heartbeat is signalled without an intervening
successful exchange. -/
theorem keepalive_expired_stays_expired (ka : KeepAlive) (t0 : Int) (ts : List Int)
    (h0 : (ka.step t0).1 = false) (hch : List.Chain (· ≤ ·) t0 ts) :
    (ka.runSteps ts).1 = List.replicate ts.length false ∧
      (ka.runSteps ts).2 = ka := by
  induction ts generalizing t0 with
  | nil => exact ⟨rfl, rfl⟩
  | cons t1 ts ih =>
    rcases hch with _ | ⟨h01, hch'⟩
    have hf1 : (ka.step t1).1 = false := keepalive_step_false_mono ka t0 t1 h0 h01
    have hunch : (ka.step t1).2 = ka := by
      have hn : ¬t1 - ka.last < 1000000 * ka.seconds := by
        simpa [KeepAlive.step] using hf1
      simp [KeepAlive.step, hn]
    have hrec := ih t1 hf1 hch'
    simp only [KeepAlive.runSteps, hf1, hunch, List.length_cons, List.replicate_succ]
    exact ⟨by rw [hrec.1], hrec.2⟩

/-- C10 witness: a timer with threshold 1 s and reset point 0, stepped
at 2 s (false), stays false and unchanged when stepped again at 2 s and
at 3 s. -/
theorem keepalive_expired_stays_expired_witness :
    (KeepAlive.step ⟨1, 0⟩ 2000000).1 = false ∧
      List.Chain (· ≤ ·) (2000000 : Int) [2000000, 3000000] ∧
      (KeepAlive.runSteps ⟨1, 0⟩ [2000000, 3000000]).1 = [false, false] ∧
      (KeepAlive.runSteps ⟨1, 0⟩ [2000000, 3000000]).2 = ⟨1, 0⟩ := by
  have hf : (KeepAlive.step ⟨1, 0⟩ 2000000).1 = false := by
    simp [KeepAlive.step]
  have hch : List.Chain (· ≤ ·) (2000000 : Int) [2000000, 3000000] := by
    refine List.Chain.cons le_rfl (List.Chain.cons (by norm_num) List.Chain.nil)
  have h := keepalive_expired_stays_expired ⟨1, 0⟩ 2000000 [2000000, 3000000] hf hch
  exact ⟨hf, hch, h.1, h.2⟩
